import Mathlib

/-!
Verification development for the RAGPrepTool document conversion pipeline.

The definitions below are a shallow embedding of the Python source under
`src/document_processor/`: filenames are `List Char`, file systems are
explicit state records, external libraries (PIL, pandas, requests) are
modelled at their interface exactly as the source calls them, and every
branch of the embedded functions mirrors a branch of the Python code.
-/

/-! ## Character and filename utilities -/

/-- True when the character is an OS path separator (POSIX or Windows). -/
def isSepChar (c : Char) : Bool := c = '/' || c = '\\'

/-- A filename fragment is separator-free. -/
def noSeps (l : List Char) : Bool := l.all (fun c => !(isSepChar c))

/-- Whether the character list contains two consecutive dots (a ".." sequence). -/
def hasDD : List Char → Bool
| [] => false
| [_] => false
| a :: b :: rest => (a = '.' && b = '.') || hasDD (b :: rest)

/-- Embedding of Python `os.path.splitext` restricted to plain basenames
(no directory component): split at the last dot provided at least one
non-dot character precedes it; otherwise the extension is empty. -/
def splitext (name : List Char) : List Char × List Char :=
  match (name.reverse).dropWhile (fun c => c ≠ '.') with
  | [] => (name, [])
  | _ :: baseRev =>
    if baseRev.reverse.any (fun c => c ≠ '.') then
      (baseRev.reverse, '.' :: ((name.reverse).takeWhile (fun c => c ≠ '.')).reverse)
    else (name, [])

/-- A legal input filename: nonempty, not the reserved directory entry ".",
containing no OS path separator and no ".." sequence. -/
def legalFilename (l : List Char) : Prop :=
  l ≠ [] ∧ l ≠ ['.'] ∧ noSeps l = true ∧ hasDD l = false

instance (l : List Char) : Decidable (legalFilename l) := by
  unfold legalFilename; infer_instance

/-! ## Image Normalizer (`utils/image_utils.py`, `ImageProcessor.process_image`) -/

/-- Save formats chosen by `process_image`: JPEG for `.jpg`/`.jpeg`
suggestions, PNG otherwise. -/
inductive ImgFormat
  | png
  | jpeg
deriving DecidableEq

/-- Characters of `save_format.lower()` as used to build the final filename. -/
def ImgFormat.lowerName : ImgFormat → List Char
  | ImgFormat.png => ['p', 'n', 'g']
  | ImgFormat.jpeg => ['j', 'p', 'e', 'g']

/-- Result of `PIL.Image.open` when it succeeds: pixel dimensions and
whether the mode is RGB (the only mode property the source inspects). -/
structure DecodedImage where
  width : Nat
  height : Nat
  isRGB : Bool
deriving DecidableEq

/-- Embedding of `PIL.Image.convert("RGB")`: changes mode, preserves size. -/
def convertRGB (img : DecodedImage) : DecodedImage :=
  { img with isRGB := true }

/-- The action field of the result dict of `process_image`. -/
inductive ImgAction
  | save
  | embed
  | remove
deriving DecidableEq

/-- The result dict of `process_image`. The data URI
`data:image/<subtype>;base64,<b64>` is represented by the pair of the
format (giving the MIME subtype) and the bytes that were base64-encoded. -/
structure ImageResult where
  action : ImgAction
  bytes : List Nat
  format : ImgFormat
  dataUri : Option (ImgFormat × List Nat)
deriving DecidableEq

/-- The configuration keys read by `process_image` (dict or ConverterConfig). -/
structure ImageConfig where
  exclude_decorative : Bool
  decorative_threshold_px : Nat
  apply_max_res : Bool
  max_image_res_px : Nat
  embed_small_images : Bool
  small_image_threshold_kb : Nat
deriving DecidableEq

/-- Characters lowercased, modelling Python `str.lower` on ASCII filenames. -/
def lowerChars (l : List Char) : List Char := l.map Char.toLower

/-- Save-format selection of `process_image`: the suggestion's extension,
lowercased, selects JPEG for `.jpg`/`.jpeg` and PNG for everything else
(including a missing suggestion). -/
def saveFormatFor (suggestion : Option (List Char)) : ImgFormat :=
  match suggestion with
  | Option.none => ImgFormat.png
  | Option.some name =>
    let ext := lowerChars (splitext name).2
    if ext = ['.', 'j', 'p', 'g'] || ext = ['.', 'j', 'p', 'e', 'g'] then ImgFormat.jpeg
    else ImgFormat.png

/-- Embedding of `ImageProcessor.process_image`.

`decoded` is the outcome of `PIL.Image.open` (`Option.none` models
`UnidentifiedImageError` or any other decoding exception, which the source
catches, returning the initial result record unchanged). `thumbnail`
embeds `PIL.Image.thumbnail` (aspect-fit downscale) and `encode` embeds
`img.save` to an in-memory buffer; both are external-library behaviour
passed as parameters. Every branch mirrors the Python control flow. -/
def processImage (cfg : ImageConfig) (imageBytes : List Nat)
    (suggestion : Option (List Char)) (decoded : Option DecodedImage)
    (thumbnail : DecodedImage → Nat → DecodedImage)
    (encode : DecodedImage → ImgFormat → List Nat) : ImageResult :=
  let result0 : ImageResult :=
    { action := ImgAction.save, bytes := imageBytes, format := ImgFormat.png,
      dataUri := Option.none }
  match decoded with
  | Option.none => result0
  | Option.some img0 =>
    let fmt := saveFormatFor suggestion
    let img1 := if fmt = ImgFormat.jpeg && !img0.isRGB then convertRGB img0 else img0
    if cfg.exclude_decorative && decide (0 < cfg.decorative_threshold_px)
        && decide (img1.width < cfg.decorative_threshold_px)
        && decide (img1.height < cfg.decorative_threshold_px) then
      { action := ImgAction.remove, bytes := imageBytes, format := fmt,
        dataUri := Option.none }
    else
      let img2 :=
        if cfg.apply_max_res && decide (0 < cfg.max_image_res_px)
            && (decide (cfg.max_image_res_px < img1.width)
                || decide (cfg.max_image_res_px < img1.height)) then
          thumbnail img1 cfg.max_image_res_px
        else img1
      let outBytes := encode img2 fmt
      if cfg.embed_small_images && decide (0 < cfg.small_image_threshold_kb)
          && decide (outBytes.length < cfg.small_image_threshold_kb * 1024) then
        { action := ImgAction.embed, bytes := outBytes, format := fmt,
          dataUri := Option.some (fmt, outBytes) }
      else
        { action := ImgAction.save, bytes := outBytes, format := fmt,
          dataUri := Option.none }

/-- The final filename built by the relink branch of
`ImageProcessor.process_pdf_images`: the suggestion's base name with an
extension matching the chosen save format
(`final_name = base_name + "." + save_format.lower()`). -/
def relinkFinalName (suggested : List Char) (fmt : ImgFormat) : List Char :=
  (splitext suggested).1 ++ '.' :: fmt.lowerName

/-- The characters of the literal path segment `media/`. -/
def mediaSeg : List Char := ['m', 'e', 'd', 'i', 'a', '/']

/-- The reference path written into the Markdown for a relink decision:
`os.path.join("media", final_name).replace(chr(92), "/")`. -/
def relinkNewPath (suggested : List Char) (fmt : ImgFormat) : List Char :=
  mediaSeg ++ relinkFinalName suggested fmt

/-! ## Processor registry (`processors/processor_factory.py`) -/

/-- A registered processor class, identified by name, with the extension
list its `get_supported_extensions` returns. -/
structure ProcClass where
  pname : String
  exts : List String
deriving DecidableEq

/-- Embedding of `DocumentProcessorFactory.get_all_supported_extensions`:
iterate the registered classes in order and assign
`extensions_map[ext] = processor_class` for each declared extension.
The map is represented as a lookup function. -/
def getAllSupportedExtensions (classes : List ProcClass) : String → Option ProcClass :=
  classes.foldl
    (fun m c =>
      c.exts.foldl (fun m2 e => fun x => if x = e then Option.some c else m2 x) m)
    (fun _ => Option.none)

/-- The processor instance `create_processor` dispatches to. -/
inductive Dispatched
  | viaRegistry (c : ProcClass)
  | viaPandoc
  | viaSimple
deriving DecidableEq

/-- Embedding of `DocumentProcessorFactory.create_processor` on an
already-lowercased extension: registry map first, then the Pandoc
format-support predicate, then the SimpleProcessor fallback. -/
def createProcessor (classes : List ProcClass) (ext : String)
    (pandocSupported : Bool) : Dispatched :=
  match getAllSupportedExtensions classes ext with
  | Option.some c => Dispatched.viaRegistry c
  | Option.none =>
    if pandocSupported then Dispatched.viaPandoc else Dispatched.viaSimple

/-- The class that would win under last-registration-wins: the last class
in registration order whose extension list claims `ext`. -/
def lastClaimant (classes : List ProcClass) (ext : String) : Option ProcClass :=
  (classes.filter (fun c => decide (ext ∈ c.exts))).getLast?

/-- The class that the specification text says should win
(first-registration-wins): the first class in registration order whose
extension list claims `ext`. Written from the spec's words, for
comparison with the embedded code. -/
def firstClaimantSpec (classes : List ProcClass) (ext : String) : Option ProcClass :=
  (classes.filter (fun c => decide (ext ∈ c.exts))).head?

/-! ## SimpleProcessor (`processors/simple_processor.py`) -/

/-- Metadata record produced by `SimpleProcessor.process`. -/
structure SimpleMeta where
  source_filename : String
  parser : String
  language : Option String
  error : Option String
deriving DecidableEq

/-- Outcome of reading the source file (`open` + `read`). -/
inductive FileRead
  | ok (content : String)
  | fail (err : String)
deriving DecidableEq

/-- The code extensions of `SimpleProcessor.FILE_TYPES`, in source order. -/
def codeExts : List String :=
  [".py", ".js", ".java", ".cs", ".c", ".cpp", ".go", ".rb", ".php", ".rs",
   ".kt", ".swift"]

/-- Python `ext.lstrip(".")` on an extension string. -/
def stripDot (s : String) : String :=
  (s.toList.dropWhile (fun c => c = '.')).asString

/-- Embedding of `SimpleProcessor.process`. `jsonPretty` embeds
`json.dumps(json.loads(content), indent=2)`: `Option.none` models the
`json.loads` exception on invalid JSON (the exception text is abstracted
to a fixed message; only its presence matters). Extensions outside
`FILE_TYPES` fall back to the `.txt` handler as in the source. -/
def simpleProcess (jsonPretty : String → Option String) (filename ext : String)
    (r : FileRead) : Option String × SimpleMeta :=
  let knownExt :=
    if ext = ".txt" || ext = ".json" || decide (ext ∈ codeExts) then ext else ".txt"
  let parserName :=
    if knownExt = ".json" then "json_simple"
    else if decide (knownExt ∈ codeExts) then "code_simple"
    else "txt_simple"
  let baseMeta : SimpleMeta :=
    { source_filename := filename, parser := parserName,
      language := Option.none, error := Option.none }
  match r with
  | FileRead.fail err => (Option.none, { baseMeta with error := Option.some err })
  | FileRead.ok content =>
    let meta1 :=
      if decide (knownExt ∈ codeExts) then
        { baseMeta with language := Option.some (stripDot knownExt) }
      else baseMeta
    if knownExt = ".json" then
      match jsonPretty content with
      | Option.some pretty =>
        (Option.some ("```json\n" ++ pretty ++ "\n```"), meta1)
      | Option.none =>
        (Option.some ("```\n" ++ content ++ "\n```"),
         { meta1 with error := Option.some "Invalid JSON" })
    else if decide (knownExt ∈ codeExts) then
      (Option.some ("```" ++ stripDot knownExt ++ "\n" ++ content ++ "\n```"), meta1)
    else
      (Option.some content, meta1)

/-! ## Excel/CSV processor result shape (`processors/excel_csv_processor.py`) -/

/-- Metadata fields of the Excel/CSV processor relevant to the
null-markdown/error invariant. -/
structure CsvMeta where
  source_filename : String
  parser : String
  error : Option String
deriving DecidableEq

/-- The return sites of `ExcelCsvProcessor.process` (including its
`_process_regular_csv_file` helper): missing pandas, the unsupported
extension branch, any exception caught by the outer handler, the four
parsing strategies all failing, an empty/unreadable DataFrame, and a
successful parse. -/
inductive CsvOutcome
  | missingPandas
  | unsupportedExt (ext : String)
  | raised (msg : String)
  | strategiesFailed (msg : String)
  | emptyResult
  | parsed (body : String)
deriving DecidableEq

/-- Embedding of the (markdown, metadata) pairs returned at each return
site of `ExcelCsvProcessor.process` / `_process_regular_csv_file`. -/
def excelCsvProcess (filename : String) (o : CsvOutcome) : Option String × CsvMeta :=
  match o with
  | CsvOutcome.missingPandas =>
    (Option.none,
     { source_filename := filename, parser := "excel_csv_parser",
       error := Option.some "Missing dependency: pandas" })
  | CsvOutcome.unsupportedExt e =>
    (Option.none,
     { source_filename := filename, parser := "excel_csv_parser",
       error := Option.some ("Unsupported format: " ++ e) })
  | CsvOutcome.raised msg =>
    (Option.none,
     { source_filename := filename, parser := "excel_csv_parser",
       error := Option.some msg })
  | CsvOutcome.strategiesFailed msg =>
    (Option.some ("# Error Processing CSV\n\nFailed to process " ++ filename
       ++ ".\n\nError: " ++ msg),
     { source_filename := filename, parser := "pandas_csv",
       error := Option.some msg })
  | CsvOutcome.emptyResult =>
    (Option.some ("# Empty CSV File\n\nThe file " ++ filename
       ++ " appears to be empty or could not be read."),
     { source_filename := filename, parser := "pandas_csv",
       error := Option.some "Empty or unreadable file" })
  | CsvOutcome.parsed body =>
    (Option.some body,
     { source_filename := filename, parser := "pandas_csv", error := Option.none })

/-! ## Orchestrator (`rag_converter.py`) -/

/-- Behaviour of one processor's `process` call on one file: either it
raises an exception, or it returns a (markdown-or-null, metadata) pair;
only the markdown component drives orchestrator control flow. -/
inductive ProcReturn
  | raises
  | returns (md : Option String)
deriving DecidableEq

/-- One batch file together with the environment behaviour for it: the
processor outcome, whether writing the markdown file succeeds, and
whether `create_zip_package` succeeds. -/
structure FileSpec where
  fname : String
  proc : ProcReturn
  writeOk : Bool
  zipOk : Bool
deriving DecidableEq

/-- Embedding of `RAGConverter.process_file_and_package`: a raised
processor exception propagates (there is no handler in the method);
a null markdown returns `False`; otherwise the markdown is written
(write failure returns `False`) and the result is the packaging result. -/
def processFileAndPackage (f : FileSpec) : Except Unit Bool :=
  match f.proc with
  | ProcReturn.raises => Except.error ()
  | ProcReturn.returns Option.none => Except.ok false
  | ProcReturn.returns (Option.some _) =>
    if !f.writeOk then Except.ok false else Except.ok f.zipOk

/-- Observable outcome of `RAGConverter.process_folder`: the per-file
success statuses reported in order, and whether the final
"Batch processing complete." status was reached. -/
structure BatchRun where
  statuses : List (String × Bool)
  completed : Bool
deriving DecidableEq

/-- Embedding of the per-file loop of `RAGConverter.process_folder`:
the loop body has no exception handler, so a propagating processor
exception aborts the loop (no status for that file, remaining files
unprocessed, no completion status). -/
def processFolderLoop : List FileSpec → BatchRun
  | [] => { statuses := [], completed := true }
  | f :: rest =>
    match processFileAndPackage f with
    | Except.error _ => { statuses := [], completed := false }
    | Except.ok b =>
      let r := processFolderLoop rest
      { statuses := (f.fname, b) :: r.statuses, completed := r.completed }

/-- The per-file success flag the orchestrator reports when no exception
propagates. -/
def fileSuccess (f : FileSpec) : Bool :=
  match f.proc with
  | ProcReturn.raises => false
  | ProcReturn.returns Option.none => false
  | ProcReturn.returns (Option.some _) => f.writeOk && f.zipOk

/-! ## Archive creation (`utils/file_utils.py`, `FileUtils.create_zip_package`) -/

/-- The file-system state `create_zip_package` interacts with: presence
and size of the markdown input file, and presence of a file at the
archive path. -/
structure ZipEnv where
  mdExists : Bool
  mdSize : Nat
  zipExists : Bool
deriving DecidableEq

/-- Whether the body of the `zipfile.ZipFile` write block runs to
completion or raises partway (disk error, unreadable media file, ...). -/
inductive ZipWrite
  | succeeds
  | fails
deriving DecidableEq

/-- Embedding of `FileUtils.create_zip_package`: the markdown file is
checked for existence and nonzero size before any archive file is
touched; a failure inside the write block is caught by the handler,
which removes the partial archive (`os.path.exists` + `os.remove`)
and returns `False`. Returns the boolean result and the final state. -/
def createZipPackage (env : ZipEnv) (w : ZipWrite) : Bool × ZipEnv :=
  if !(env.mdExists && decide (0 < env.mdSize)) then (false, env)
  else
    match w with
    | ZipWrite.succeeds => (true, { env with zipExists := true })
    | ZipWrite.fails => (false, { env with zipExists := false })

/-! ## Nested media normalizer (`FileUtils.cleanup_nested_media_folders`) -/

/-- The directory state the normalizer reads and writes: whether `media/`
and `media/media/` exist, and their files as (name, content) pairs. -/
structure MediaState where
  mediaExists : Bool
  parentFiles : Finset (String × Nat)
  nestedExists : Bool
  nestedFiles : Finset (String × Nat)
deriving DecidableEq

/-- Embedding of `FileUtils.cleanup_nested_media_folders`: returns early
unless both `media/` and `media/media/` exist as directories; then every
nested file whose name already exists in the parent is deleted (parent
copy wins), every other nested file is moved up, and the emptied nested
folder is removed. -/
def cleanupNestedMediaFolders (s : MediaState) : MediaState :=
  if !s.mediaExists then s
  else if !s.nestedExists then s
  else
    { mediaExists := s.mediaExists
      parentFiles := s.parentFiles ∪
        s.nestedFiles.filter (fun p => p.1 ∉ s.parentFiles.image Prod.fst)
      nestedExists := false
      nestedFiles := ∅ }

/-! ## CSV delimiter scoring (`ExcelCsvProcessor._score_csv_parsing`)

The scoring sample is read with `pd.read_csv(..., nrows=100,
on_bad_lines="skip", dtype=str)`. The parser is embedded for quote-free
input: the header row's fields name the columns, blank lines are
skipped, a data line with more fields than there are columns is a bad
line and is skipped, and at most 100 data rows are kept. Because the
sample is read with `dtype=str`, every column has object dtype, so the
mixed-numeric-and-text bonus of the scoring function can never fire on
the sample. -/

/-- Split a raw line into fields at each occurrence of the separator. -/
def splitFields (sep : Char) : List Char → List (List Char)
  | [] => [[]]
  | c :: rest =>
    let r := splitFields sep rest
    if c = sep then [] :: r
    else
      match r with
      | [] => [[c]]
      | f :: fs => (c :: f) :: fs

/-- Whitespace characters removed by Python `str.strip`. -/
def isStripChar (c : Char) : Bool :=
  c = ' ' || c = '\t' || c = '\n' || c = '\r'

/-- Python `str.strip` on a character list. -/
def stripChars (l : List Char) : List Char :=
  ((l.dropWhile isStripChar).reverse.dropWhile isStripChar).reverse

/-- The scoring sample: column names from the header row, plus the kept
data rows (each a list of fields). -/
structure CsvTable where
  header : List (List Char)
  rows : List (List (List Char))
deriving DecidableEq

/-- Embedding of the sample read `pd.read_csv(..., sep=sep, nrows=100,
on_bad_lines="skip", dtype=str)` on quote-free raw lines: columns are the
header row's fields, blank lines are skipped, lines with more fields than
columns are skipped as bad lines, and at most 100 data rows are kept. -/
def parseSample (sep : Char) (lines : List (List Char)) : CsvTable :=
  match lines with
  | [] => { header := [], rows := [] }
  | h :: rest =>
    { header := splitFields sep h
      rows := (((rest.filter (fun l => !l.isEmpty)).map (splitFields sep)).filter
          (fun fs => fs.length ≤ (splitFields sep h).length)).take 100 }

/-- The extra −100 penalty of the single-column branch: the lone first
cell contains the separator that was not tried. -/
def otherSepPenalty (sep : Char) (firstCell : List Char) : Int :=
  if sep = ';' && firstCell.contains ',' then -100
  else if sep = ',' && firstCell.contains ';' then -100
  else 0

/-- The shape of the consistency bonus on a list of per-line separator
counts: +20 when all counts are identical, +10 when max − min ≤ 1, −10
otherwise, 0 when no nonblank line was read. -/
def consistencyOf (counts : List Nat) : Int :=
  match counts with
  | [] => 0
  | c :: cs =>
    if cs.all (fun x => x = c) then 20
    else if cs.foldl max c - cs.foldl min c ≤ 1 then 10 else -10

/-- The raw-line consistency bonus: read the first `min 10 (nrows + 1)`
raw lines, strip them, count separator occurrences per nonblank line,
and apply `consistencyOf`. -/
def consistencyBonus (sep : Char) (rawLines : List (List Char)) (nrows : Nat) : Int :=
  consistencyOf
    ((((rawLines.take (min 10 (nrows + 1))).map stripChars).filter
      (fun l => !l.isEmpty)).map (fun l => l.count sep))

/-- The header-quality count: +1 per column name that does not contain
a separator character that was not the one selected, following the
source's `if`/`elif` chain. -/
def headerQuality (sep : Char) (header : List (List Char)) : Nat :=
  header.foldl
    (fun acc col =>
      if sep ≠ ',' && !col.contains ',' then acc + 1
      else if sep ≠ ';' && !col.contains ';' then acc + 1
      else if sep ≠ '\t' && !col.contains '\t' then acc + 1
      else acc)
    0

/-- Number of numeric-dtype columns in the scoring sample. The sample is
read with `dtype=str`, so every column has object dtype and this count
is always 0 (the mixed-dtype bonus of the scoring function can never
fire on the sample). -/
def numericColsOfSample (_t : CsvTable) : Nat := 0

/-- Number of object-dtype columns in the scoring sample: with
`dtype=str`, all of them. -/
def textColsOfSample (t : CsvTable) : Nat := t.header.length

/-- Embedding of `ExcelCsvProcessor._score_csv_parsing` on the sample
table, the separator and the raw file lines, following the source term
by term (base column score, semicolon preference, single-column
penalties, raw-line consistency, dtype mix, wide-table penalty,
header quality, floor at 0). -/
def scoreCsvParsing (t : CsvTable) (sep : Char) (rawLines : List (List Char)) : Int :=
  if t.rows.isEmpty then 0
  else
    max 0
      ((t.header.length : Int) * 10
        + (if sep = ';' then 15 else 0)
        + (if t.header.length = 1 then
             -50 + (match t.rows with
                    | [] => 0
                    | r :: _ => otherSepPenalty sep (r.headD []))
           else 0)
        + (if 1 < t.header.length then consistencyBonus sep rawLines t.rows.length
           else 0)
        + (if 0 < numericColsOfSample t ∧ 0 < textColsOfSample t then 15 else 0)
        + (if 100 < t.header.length then -30 else 0)
        + (if 1 < t.header.length then 2 * (headerQuality sep t.header : Int) else 0))

/-! ## Configuration plumbing (`config.py`, `processors/pandoc_processor.py`,
`utils/pandoc_utils.py`) -/

/-- A configuration value: Python booleans, integers and strings. -/
inductive ConfigVal
  | b (v : Bool)
  | n (v : Nat)
  | s (v : String)
deriving DecidableEq

/-- Python `dict.get(key, default)` on an association list. -/
def dictGet (d : List (String × ConfigVal)) (k : String) (dflt : ConfigVal) : ConfigVal :=
  match d.find? (fun p => p.1 = k) with
  | Option.some p => p.2
  | Option.none => dflt

/-- Embedding of `ConverterConfig`: its `__init__` materializes exactly
these nine attributes from the incoming dict, each with its stated
default. Keys outside this list (notably `limit_image_download` and
`image_download_timeout`) are discarded. -/
structure ConverterConfigM where
  apply_max_res : ConfigVal
  max_image_res_px : ConfigVal
  exclude_decorative : ConfigVal
  decorative_threshold_px : ConfigVal
  embed_small_images : ConfigVal
  small_image_threshold_kb : ConfigVal
  max_rows_display : ConfigVal
  max_columns_display : ConfigVal
  pandoc_toc : ConfigVal
deriving DecidableEq

/-- Embedding of `ConverterConfig.__init__`. -/
def converterConfigInit (d : List (String × ConfigVal)) : ConverterConfigM :=
  { apply_max_res := dictGet d "apply_max_res" (ConfigVal.b false)
    max_image_res_px := dictGet d "max_image_res_px" (ConfigVal.n 1200)
    exclude_decorative := dictGet d "exclude_decorative" (ConfigVal.b false)
    decorative_threshold_px := dictGet d "decorative_threshold_px" (ConfigVal.n 50)
    embed_small_images := dictGet d "embed_small_images" (ConfigVal.b false)
    small_image_threshold_kb := dictGet d "small_image_threshold_kb" (ConfigVal.n 50)
    max_rows_display := dictGet d "max_rows_display" (ConfigVal.n 1000)
    max_columns_display := dictGet d "max_columns_display" (ConfigVal.n 50)
    pandoc_toc := dictGet d "pandoc_toc" (ConfigVal.b false) }

/-- Embedding of `ConverterConfig.get`, which is
`getattr(self, key, default)`: only the nine materialized attributes can
be found; every other key yields the supplied default. -/
def configGet (c : ConverterConfigM) (key : String) (dflt : ConfigVal) : ConfigVal :=
  if key = "apply_max_res" then c.apply_max_res
  else if key = "max_image_res_px" then c.max_image_res_px
  else if key = "exclude_decorative" then c.exclude_decorative
  else if key = "decorative_threshold_px" then c.decorative_threshold_px
  else if key = "embed_small_images" then c.embed_small_images
  else if key = "small_image_threshold_kb" then c.small_image_threshold_kb
  else if key = "max_rows_display" then c.max_rows_display
  else if key = "max_columns_display" then c.max_columns_display
  else if key = "pandoc_toc" then c.pandoc_toc
  else dflt

/-- Embedding of the `pandoc_options` dict assembled in
`PandocProcessor.process` (note the literal `False` default supplied for
`limit_image_download`). -/
def pandocProcessorOptions (c : ConverterConfigM) : List (String × ConfigVal) :=
  [("images", ConfigVal.s "separate"),
   ("standalone", ConfigVal.b true),
   ("toc", configGet c "pandoc_toc" (ConfigVal.b false)),
   ("limit_image_download", configGet c "limit_image_download" (ConfigVal.b false)),
   ("image_download_timeout", configGet c "image_download_timeout" (ConfigVal.n 120))]

/-- Python truthiness of a configuration value. -/
def truthy : ConfigVal → Bool
  | ConfigVal.b v => v
  | ConfigVal.n v => decide (0 < v)
  | ConfigVal.s v => !v.isEmpty

/-- Embedding of the timeout computation in
`PandocUtils._predownload_external_images`: `timeout = None` unless
`options.get("limit_image_download", True)` is truthy, in which case
`options.get("image_download_timeout", 90)` is used. The returned value
is passed to every `requests.get(url, timeout=timeout)` call;
`Option.none` therefore means an unbounded request. -/
def predownloadTimeout (options : List (String × ConfigVal)) : Option ConfigVal :=
  if truthy (dictGet options "limit_image_download" (ConfigVal.b true)) then
    Option.some (dictGet options "image_download_timeout" (ConfigVal.n 90))
  else Option.none

/-! ## Theorems -/

/-- C5: for every configuration, byte string and filename suggestion, when
decoding fails (`PIL.Image.open` raises, as it does for non-image bytes)
`process_image` returns — rather than raises — the save-as-is decision:
action `save`, the original unmodified bytes, and format defaulting to
PNG. The embedded function is total, so no input can raise. -/
theorem processImage_decode_failure_saves_as_is (cfg : ImageConfig)
    (imageBytes : List Nat) (suggestion : Option (List Char))
    (thumbnail : DecodedImage → Nat → DecodedImage)
    (encode : DecodedImage → ImgFormat → List Nat) :
    processImage cfg imageBytes suggestion Option.none thumbnail encode =
      { action := ImgAction.save, bytes := imageBytes, format := ImgFormat.png,
        dataUri := Option.none } := rfl

/-- C9: whenever the exclude-decorative policy is enabled and the decoded
image's width and height are both strictly below the configured
threshold, `process_image` decides `remove`, for every setting of the
resize and embed flags; the returned bytes are the untouched input bytes
and no data URI is produced, so no resizing, re-encoding, or embedding
check took place. -/
theorem processImage_decorative_always_removed (cfg : ImageConfig)
    (imageBytes : List Nat) (suggestion : Option (List Char))
    (img : DecodedImage) (thumbnail : DecodedImage → Nat → DecodedImage)
    (encode : DecodedImage → ImgFormat → List Nat)
    (h1 : cfg.exclude_decorative = true)
    (h2 : img.width < cfg.decorative_threshold_px)
    (h3 : img.height < cfg.decorative_threshold_px) :
    processImage cfg imageBytes suggestion (Option.some img) thumbnail encode =
      { action := ImgAction.remove, bytes := imageBytes,
        format := saveFormatFor suggestion, dataUri := Option.none } := by
  have ht : 0 < cfg.decorative_threshold_px := lt_of_le_of_lt (Nat.zero_le _) h2
  cases hb : (saveFormatFor suggestion = ImgFormat.jpeg && !img.isRGB) <;>
    simp [processImage, hb, convertRGB, h1, h2, h3, ht]

/-- Concrete instantiation of `processImage_decorative_always_removed`:
a 10×10 image under a threshold of 50 with exclusion enabled and both
other flags enabled is removed. -/
theorem processImage_decorative_always_removed_witness :
    processImage
      { exclude_decorative := true, decorative_threshold_px := 50,
        apply_max_res := true, max_image_res_px := 1200,
        embed_small_images := true, small_image_threshold_kb := 50 }
      [7, 7, 7] Option.none
      (Option.some { width := 10, height := 10, isRGB := true })
      (fun img _ => img) (fun _ _ => [0]) =
      { action := ImgAction.remove, bytes := [7, 7, 7],
        format := saveFormatFor Option.none, dataUri := Option.none } :=
  processImage_decorative_always_removed
    { exclude_decorative := true, decorative_threshold_px := 50,
      apply_max_res := true, max_image_res_px := 1200,
      embed_small_images := true, small_image_threshold_kb := 50 }
    [7, 7, 7] Option.none { width := 10, height := 10, isRGB := true }
    (fun img _ => img) (fun _ _ => [0]) rfl (by decide) (by decide)

/-- C8: the nested-media-folder normalizer is idempotent: running it a
second time on the directory state left by the first run changes
nothing, because the first run removed the nested `media/media/` folder
(or returned without touching anything). -/
theorem cleanupNestedMediaFolders_idempotent (s : MediaState) :
    cleanupNestedMediaFolders (cleanupNestedMediaFolders s) =
      cleanupNestedMediaFolders s := by
  by_cases h1 : s.mediaExists
  · by_cases h2 : s.nestedExists
    · simp [cleanupNestedMediaFolders, h1, h2]
    · simp [cleanupNestedMediaFolders, h1, h2]
  · simp [cleanupNestedMediaFolders, h1]

/-- C10: with a configuration dict in which neither image-download option
is set — and even with `limit_image_download` explicitly set to true, as
the UI does — the options assembled by `PandocProcessor.process` make
`PandocUtils._predownload_external_images` compute `timeout = None`, so
every `requests.get` issued for an external image is unbounded:
`ConverterConfig` discards both keys and the processor then injects the
literal default `False`, defeating the documented default-on limiting. -/
theorem pandocPredownloadTimeout_is_unbounded :
    predownloadTimeout (pandocProcessorOptions (converterConfigInit [])) =
      Option.none ∧
    predownloadTimeout (pandocProcessorOptions (converterConfigInit
      [("limit_image_download", ConfigVal.b true),
       ("image_download_timeout", ConfigVal.n 90)])) = Option.none := by
  constructor <;> rfl

/-- C4: archive creation fails safely: when the markdown input file is
absent or has zero bytes the call returns false without touching the
archive path, and when the archive write fails partway the call returns
false with the partial archive file removed — a failed build leaves no
archive file behind. -/
theorem createZipPackage_failure_leaves_no_archive (env : ZipEnv) (w : ZipWrite) :
    (env.mdExists = false ∨ env.mdSize = 0 →
      createZipPackage env w = (false, env)) ∧
    (env.mdExists = true → 0 < env.mdSize → w = ZipWrite.fails →
      createZipPackage env w = (false, { env with zipExists := false })) := by
  constructor
  · intro h
    have hc : (env.mdExists && decide (0 < env.mdSize)) = false := by
      rcases h with h | h <;> simp [h]
    simp [createZipPackage, hc]
  · intro h1 h2 h3
    subst h3
    simp [createZipPackage, h1, h2]

/-- Concrete instantiation of `createZipPackage_failure_leaves_no_archive`:
an empty markdown file yields false with the state untouched, and a
mid-write failure on a valid markdown file yields false with no archive
present afterwards. -/
theorem createZipPackage_failure_leaves_no_archive_witness :
    createZipPackage { mdExists := true, mdSize := 0, zipExists := false }
        ZipWrite.succeeds =
      (false, { mdExists := true, mdSize := 0, zipExists := false }) ∧
    createZipPackage { mdExists := true, mdSize := 5, zipExists := false }
        ZipWrite.fails =
      (false, { mdExists := true, mdSize := 5, zipExists := false }) := by
  constructor
  · exact (createZipPackage_failure_leaves_no_archive
      { mdExists := true, mdSize := 0, zipExists := false } ZipWrite.succeeds).1
      (Or.inr rfl)
  · exact (createZipPackage_failure_leaves_no_archive
      { mdExists := true, mdSize := 5, zipExists := false } ZipWrite.fails).2
      rfl (by decide) rfl

/-- C1 counterexample: a `.json` file whose content is not valid JSON
(`json.loads` raises, embedded by the pretty-printer returning
`Option.none`) yields non-null markdown — the fenced code block around
the raw text — together with an `error` key in the metadata, so
"markdown is null iff metadata contains an error key" is false. -/
theorem simpleProcess_invalid_json_breaks_iff :
    ¬ (((simpleProcess (fun _ => Option.none) "broken.json" ".json"
          (FileRead.ok "not json")).1 = Option.none) ↔
       ((simpleProcess (fun _ => Option.none) "broken.json" ".json"
          (FileRead.ok "not json")).2.error).isSome = true) := by
  intro h
  have hmd := h.mpr (by rfl)
  exact absurd hmd (by simp [simpleProcess])

/-- A successful file read never yields null markdown in
`SimpleProcessor.process`: every formatter/error-handler branch returns
a string. -/
theorem simpleProcess_ok_fst_isSome (jsonPretty : String → Option String)
    (filename ext content : String) :
    ((simpleProcess jsonPretty filename ext (FileRead.ok content)).1).isSome
      = true := by
  by_cases hj : ext = ".json"
  · subst hj
    cases hjp : jsonPretty content <;> simp [simpleProcess, codeExts, hjp]
  · by_cases ht : ext = ".txt"
    · subst ht; simp [simpleProcess, codeExts]
    · by_cases hc : ext ∈ codeExts
      · fin_cases hc <;> simp [simpleProcess, codeExts]
      · have hc2 : decide (ext ∈ codeExts) = false := by simpa using hc
        have hj2 : decide (ext = ".json") = false := by simpa using hj
        have ht2 : decide (ext = ".txt") = false := by simpa using ht
        simp only [simpleProcess, hc2, hj2, ht2, Bool.or_false, Bool.false_or,
          Bool.false_eq_true, if_false]
        simp [codeExts]

/-- C1 amended: for the SimpleProcessor and the Excel/CSV processor, a
null markdown result always comes with an `error` key in the metadata;
the converse direction of the claimed equivalence does not hold
(recoverable formatting failures return non-null markdown together with
an `error` key). -/
theorem nullMarkdown_implies_error (jsonPretty : String → Option String)
    (filename ext : String) (r : FileRead) (csvName : String) (o : CsvOutcome) :
    ((simpleProcess jsonPretty filename ext r).1 = Option.none →
      ((simpleProcess jsonPretty filename ext r).2.error).isSome = true) ∧
    ((excelCsvProcess csvName o).1 = Option.none →
      ((excelCsvProcess csvName o).2.error).isSome = true) := by
  constructor
  · intro h
    cases r with
    | fail err => simp [simpleProcess]
    | ok content =>
      have hs := simpleProcess_ok_fst_isSome jsonPretty filename ext content
      rw [h] at hs
      exact absurd hs (by simp)
  · intro h
    cases o <;> simp_all [excelCsvProcess]

/-- Concrete instantiation of `nullMarkdown_implies_error`: an unreadable
`.txt` file and a missing-pandas CSV run both produce an error entry. -/
theorem nullMarkdown_implies_error_witness :
    ((simpleProcess (fun _ => Option.none) "a.txt" ".txt"
        (FileRead.fail "boom")).2.error).isSome = true ∧
    (((excelCsvProcess "b.csv" CsvOutcome.missingPandas).2.error).isSome = true) := by
  constructor
  · exact (nullMarkdown_implies_error (fun _ => Option.none) "a.txt" ".txt"
      (FileRead.fail "boom") "b.csv" CsvOutcome.missingPandas).1 rfl
  · exact (nullMarkdown_implies_error (fun _ => Option.none) "a.txt" ".txt"
      (FileRead.fail "boom") "b.csv" CsvOutcome.missingPandas).2 rfl

/-- C2 counterexample: a two-file batch whose first processor raises.
The loop body of `process_folder` has no exception handler, so the
exception aborts the batch: no per-file status is recorded, the second
file is never processed, and the final completion status is never
reached — contradicting "records that file as failed and continues with
every remaining file, ending with the final completion status". -/
theorem processFolder_exception_aborts_batch :
    processFolderLoop
        [{ fname := "a.pdf", proc := ProcReturn.raises, writeOk := true,
           zipOk := true },
         { fname := "b.txt", proc := ProcReturn.returns (Option.some "ok"),
           writeOk := true, zipOk := true }] =
      { statuses := [], completed := false } ∧
    ¬ ((processFolderLoop
        [{ fname := "a.pdf", proc := ProcReturn.raises, writeOk := true,
           zipOk := true },
         { fname := "b.txt", proc := ProcReturn.returns (Option.some "ok"),
           writeOk := true, zipOk := true }]).statuses.length = 2 ∧
       (processFolderLoop
        [{ fname := "a.pdf", proc := ProcReturn.raises, writeOk := true,
           zipOk := true },
         { fname := "b.txt", proc := ProcReturn.returns (Option.some "ok"),
           writeOk := true, zipOk := true }]).completed = true) := by
  constructor
  · rfl
  · intro h
    exact absurd h.2 (by decide)

/-- C2 amended: as long as no processor raises past its `process` call,
the orchestrator's per-file handling records every failure (null
markdown, write failure, packaging failure) as a failed status for that
file and continues with every remaining file, ending with the final
completion status; an exception propagating out of a processor, however,
aborts the batch (there is no per-file exception boundary). -/
theorem processFolder_no_raise_never_aborts (files : List FileSpec)
    (h : ∀ f ∈ files, f.proc ≠ ProcReturn.raises) :
    (processFolderLoop files).completed = true ∧
    (processFolderLoop files).statuses =
      files.map (fun f => (f.fname, fileSuccess f)) := by
  induction files with
  | nil => exact ⟨rfl, rfl⟩
  | cons f rest ih =>
    have hf := h f (List.mem_cons_self f rest)
    have hrest : ∀ g ∈ rest, g.proc ≠ ProcReturn.raises :=
      fun g hg => h g (List.mem_cons_of_mem f hg)
    obtain ⟨ih1, ih2⟩ := ih hrest
    cases hp : f.proc with
    | raises => exact absurd hp hf
    | returns md =>
      cases md with
      | none =>
        constructor <;>
          simp [processFolderLoop, processFileAndPackage, hp, ih1, ih2, fileSuccess]
      | some s =>
        cases hw : f.writeOk <;> constructor <;>
          simp [processFolderLoop, processFileAndPackage, hp, hw, ih1, ih2,
            fileSuccess]

/-- Concrete instantiation of `processFolder_no_raise_never_aborts`: a
batch where the first file fails with a null markdown result and the
second succeeds runs to completion with statuses for both files. -/
theorem processFolder_no_raise_never_aborts_witness :
    (processFolderLoop
        [{ fname := "bad.csv", proc := ProcReturn.returns Option.none,
           writeOk := true, zipOk := true },
         { fname := "good.txt", proc := ProcReturn.returns (Option.some "ok"),
           writeOk := true, zipOk := true }]).completed = true ∧
    (processFolderLoop
        [{ fname := "bad.csv", proc := ProcReturn.returns Option.none,
           writeOk := true, zipOk := true },
         { fname := "good.txt", proc := ProcReturn.returns (Option.some "ok"),
           writeOk := true, zipOk := true }]).statuses =
      [("bad.csv", false), ("good.txt", true)] := by
  have h := processFolder_no_raise_never_aborts
    [{ fname := "bad.csv", proc := ProcReturn.returns Option.none,
       writeOk := true, zipOk := true },
     { fname := "good.txt", proc := ProcReturn.returns (Option.some "ok"),
       writeOk := true, zipOk := true }]
    (by intro f hf; fin_cases hf <;> decide)
  exact ⟨h.1, h.2.trans (by rfl)⟩

/-- Inner fold of `get_all_supported_extensions` over one class's
extension list: lookup afterwards finds the class exactly on its own
extensions, and the previous map elsewhere. -/
theorem extFold_lookup (c : ProcClass) (exts : List String)
    (m : String → Option ProcClass) (ext : String) :
    (exts.foldl (fun m2 e => fun x => if x = e then Option.some c else m2 x) m)
        ext =
      if ext ∈ exts then Option.some c else m ext := by
  induction exts generalizing m with
  | nil => simp
  | cons e rest ih =>
    simp only [List.foldl_cons]
    rw [ih]
    by_cases h1 : ext ∈ rest
    · simp [h1]
    · by_cases h2 : ext = e <;> simp [h1, h2]

/-- Outer fold of `get_all_supported_extensions`: the resulting lookup
returns the last registered claimant of the extension, falling back to
the starting map. -/
theorem registryFold_lookup (classes : List ProcClass)
    (m : String → Option ProcClass) (ext : String) :
    (classes.foldl
        (fun m c =>
          c.exts.foldl (fun m2 e => fun x => if x = e then Option.some c else m2 x) m)
        m) ext =
      ((classes.filter (fun c => decide (ext ∈ c.exts))).getLast?).or (m ext) := by
  induction classes generalizing m with
  | nil => simp [Option.or]
  | cons c rest ih =>
    simp only [List.foldl_cons]
    rw [ih, extFold_lookup]
    by_cases hc : ext ∈ c.exts
    · rw [List.filter_cons_of_pos (by simpa using hc), if_pos hc]
      cases hrf : rest.filter (fun c => decide (ext ∈ c.exts)) with
      | nil => simp [hrf, Option.or]
      | cons x xs =>
        rw [List.getLast?_cons_cons]
        cases hgl : (x :: xs).getLast? with
        | none => exact absurd hgl (by simp)
        | some y => simp [Option.or]
    · rw [List.filter_cons_of_neg (by simpa using hc), if_neg hc]

/-- The extension map of the embedded registry equals last-claimant
lookup. -/
theorem getAllSupportedExtensions_eq_lastClaimant (classes : List ProcClass)
    (ext : String) :
    getAllSupportedExtensions classes ext = lastClaimant classes ext := by
  unfold getAllSupportedExtensions lastClaimant
  rw [registryFold_lookup]
  cases hrf : (classes.filter (fun c => decide (ext ∈ c.exts))).getLast? <;>
    simp [Option.or]

/-- C3 counterexample: with two registered classes both claiming `.x`,
the registry binds `.x` to the *second* (later) registrant and dispatch
instantiates it, contradicting first-registration-wins. -/
theorem registry_duplicate_binds_later_class :
    getAllSupportedExtensions
        [{ pname := "FirstProc", exts := [".x"] },
         { pname := "SecondProc", exts := [".x"] }] ".x" =
      Option.some { pname := "SecondProc", exts := [".x"] } ∧
    createProcessor
        [{ pname := "FirstProc", exts := [".x"] },
         { pname := "SecondProc", exts := [".x"] }] ".x" false =
      Dispatched.viaRegistry { pname := "SecondProc", exts := [".x"] } ∧
    ({ pname := "SecondProc", exts := [".x"] } : ProcClass) ≠
      { pname := "FirstProc", exts := [".x"] } := by
  refine ⟨rfl, rfl, by decide⟩

/-- C3 amended: for every ordered list of registered processor classes,
the registry's extension map binds an extension to the *last* registered
class claiming it (an earlier registrant is overwritten), and dispatch
for a file with that extension instantiates that last-registered class. -/
theorem registry_last_registration_wins (classes : List ProcClass) (ext : String)
    (c : ProcClass) (pandocSupported : Bool)
    (h : lastClaimant classes ext = Option.some c) :
    getAllSupportedExtensions classes ext = Option.some c ∧
    createProcessor classes ext pandocSupported = Dispatched.viaRegistry c := by
  have he := getAllSupportedExtensions_eq_lastClaimant classes ext
  rw [h] at he
  refine ⟨he, ?_⟩
  unfold createProcessor
  rw [he]

/-- Concrete instantiation of `registry_last_registration_wins` on the
two-class duplicate registry. -/
theorem registry_last_registration_wins_witness :
    getAllSupportedExtensions
        [{ pname := "FirstProc", exts := [".x"] },
         { pname := "SecondProc", exts := [".x"] }] ".x" =
      Option.some { pname := "SecondProc", exts := [".x"] } ∧
    createProcessor
        [{ pname := "FirstProc", exts := [".x"] },
         { pname := "SecondProc", exts := [".x"] }] ".x" true =
      Dispatched.viaRegistry { pname := "SecondProc", exts := [".x"] } :=
  registry_last_registration_wins
    [{ pname := "FirstProc", exts := [".x"] },
     { pname := "SecondProc", exts := [".x"] }] ".x"
    { pname := "SecondProc", exts := [".x"] } true (by decide)

/-- Splitting always yields at least one field. -/
theorem splitFields_ne_nil (sep : Char) (l : List Char) : splitFields sep l ≠ [] := by
  induction l with
  | nil => simp [splitFields]
  | cons c cs ih =>
    simp only [splitFields]
    by_cases hc : c = sep
    · simp [hc]
    · rw [if_neg hc]
      cases hr : splitFields sep cs with
      | nil => simp
      | cons f fs => simp

/-- A line without the separator is a single field. -/
theorem splitFields_eq_single (sep : Char) (l : List Char)
    (h : l.contains sep = false) : splitFields sep l = [l] := by
  induction l with
  | nil => rfl
  | cons c cs ih =>
    simp only [List.contains_cons, Bool.or_eq_false_iff, beq_eq_false_iff_ne] at h
    have hcs : ¬(c = sep) := fun hh => h.1 hh.symm
    simp only [splitFields]
    rw [ih h.2, if_neg hcs]

/-- A line containing the separator splits into at least two fields. -/
theorem two_le_splitFields_length (sep : Char) (l : List Char)
    (h : l.contains sep = true) : 2 ≤ (splitFields sep l).length := by
  induction l with
  | nil => simp at h
  | cons c cs ih =>
    simp only [splitFields]
    by_cases hc : c = sep
    · rw [if_pos hc]
      cases hr : splitFields sep cs with
      | nil => exact absurd hr (splitFields_ne_nil sep cs)
      | cons f fs => simp
    · rw [if_neg hc]
      have hcs : cs.contains sep = true := by
        simp only [List.contains_cons] at h
        rcases Bool.or_eq_true_iff.mp h with h1 | h1
        · exact absurd (beq_iff_eq.mp h1).symm hc
        · exact h1
      have h2 := ih hcs
      cases hr : splitFields sep cs with
      | nil => exact absurd hr (splitFields_ne_nil sep cs)
      | cons f fs => rw [hr] at h2; simpa using h2

/-- The wrong-separator penalty is never positive. -/
theorem otherSepPenalty_nonpos (sep : Char) (fc : List Char) :
    otherSepPenalty sep fc ≤ 0 := by
  unfold otherSepPenalty
  split_ifs <;> norm_num

/-- The consistency shape is at least −10. -/
theorem consistencyOf_ge (counts : List Nat) : -10 ≤ consistencyOf counts := by
  cases counts with
  | nil => norm_num [consistencyOf]
  | cons c cs =>
    simp only [consistencyOf]
    split_ifs <;> norm_num

/-- The consistency bonus is at least −10. -/
theorem consistencyBonus_ge (sep : Char) (raw : List (List Char)) (n : Nat) :
    -10 ≤ consistencyBonus sep raw n := by
  unfold consistencyBonus
  exact consistencyOf_ge _

/-- A single-column sample always scores 0: the −50 penalty dominates
every bonus the single-column branch can still collect. -/
theorem scoreCsvParsing_single_column (t : CsvTable) (sep : Char)
    (raw : List (List Char)) (h : t.header.length = 1) :
    scoreCsvParsing t sep raw = 0 := by
  unfold scoreCsvParsing
  by_cases hr : t.rows.isEmpty = true
  · rw [if_pos hr]
  · rw [if_neg hr]
    have h1 : ¬(1 < t.header.length) := by omega
    have h100 : ¬(100 < t.header.length) := by omega
    have hmix : ¬(0 < numericColsOfSample t ∧ 0 < textColsOfSample t) := by
      intro hx
      exact absurd hx.1 (by simp [numericColsOfSample])
    rw [if_neg h1, if_neg h1, if_neg h100, if_pos h, if_neg hmix]
    have hc : ((t.header.length : Int) * 10) = 10 := by rw [h]; norm_num
    rw [hc]
    have hb : (match t.rows with
        | [] => (0 : Int)
        | r :: _ => otherSepPenalty sep (r.headD [])) ≤ 0 := by
      cases t.rows with
      | nil => norm_num
      | cons r rs => exact otherSepPenalty_nonpos sep (r.headD [])
    have hs1 : (if sep = ';' then (15 : Int) else 0) ≤ 15 := by
      split_ifs <;> norm_num
    have hs0 : (0 : Int) ≤ (if sep = ';' then (15 : Int) else 0) := by
      split_ifs <;> norm_num
    refine max_eq_left ?_
    omega

/-- A semicolon sample with at least two columns and at least one data
row scores strictly positively. -/
theorem scoreCsvParsing_semicolon_pos (t : CsvTable) (raw : List (List Char))
    (hrows : t.rows ≠ []) (hn : 2 ≤ t.header.length) :
    0 < scoreCsvParsing t ';' raw := by
  unfold scoreCsvParsing
  have hre : ¬(t.rows.isEmpty = true) := by
    simpa [List.isEmpty_iff] using hrows
  rw [if_neg hre]
  have h1 : ¬(t.header.length = 1) := by omega
  have h1lt : 1 < t.header.length := by omega
  have hmix : ¬(0 < numericColsOfSample t ∧ 0 < textColsOfSample t) := by
    intro hx
    exact absurd hx.1 (by simp [numericColsOfSample])
  rw [if_neg h1, if_pos h1lt, if_pos h1lt, if_pos rfl, if_neg hmix]
  have hcons := consistencyBonus_ge ';' raw t.rows.length
  have hq0 : (0 : Int) ≤ (headerQuality ';' t.header : Int) := Int.natCast_nonneg _
  have hn' : (2 : Int) ≤ (t.header.length : Int) := by exact_mod_cast hn
  by_cases h100 : 100 < t.header.length
  · rw [if_pos h100]
    have h100' : (100 : Int) < (t.header.length : Int) := by exact_mod_cast h100
    refine lt_of_lt_of_le ?_ (le_max_right 0 _)
    omega
  · rw [if_neg h100]
    refine lt_of_lt_of_le ?_ (le_max_right 0 _)
    omega

/-- C6 counterexample: a CSV consisting of only the header row `a;b`
(which contains `;` and not `,`) yields an empty scoring sample for both
delimiters, so both scores are 0 and the semicolon score does not
strictly exceed the comma score. -/
theorem scoreSemicolon_header_only_ties_comma :
    scoreCsvParsing (parseSample ';' [['a', ';', 'b']]) ';' [['a', ';', 'b']] = 0 ∧
    scoreCsvParsing (parseSample ',' [['a', ';', 'b']]) ',' [['a', ';', 'b']] = 0 ∧
    ¬ (scoreCsvParsing (parseSample ',' [['a', ';', 'b']]) ',' [['a', ';', 'b']] <
       scoreCsvParsing (parseSample ';' [['a', ';', 'b']]) ';' [['a', ';', 'b']]) := by
  refine ⟨by decide, by decide, by decide⟩

/-- C6 amended: for every CSV whose header row contains `;` and not `,`,
provided the semicolon-delimited sample parse keeps at least one data
row, the delimiter-detection score for `;` strictly exceeds the score
for `,` (under the same encoding); with no data row both samples are
empty and both scores are 0. -/
theorem scoreSemicolon_exceeds_comma (hd : List Char) (rest : List (List Char))
    (hsemi : hd.contains ';' = true) (hcomma : hd.contains ',' = false)
    (hrows : (parseSample ';' (hd :: rest)).rows ≠ []) :
    scoreCsvParsing (parseSample ',' (hd :: rest)) ',' (hd :: rest) <
      scoreCsvParsing (parseSample ';' (hd :: rest)) ';' (hd :: rest) := by
  have hc0 : scoreCsvParsing (parseSample ',' (hd :: rest)) ',' (hd :: rest) = 0 := by
    refine scoreCsvParsing_single_column _ _ _ ?_
    show (splitFields ',' hd).length = 1
    rw [splitFields_eq_single ',' hd hcomma]
    rfl
  have hn : 2 ≤ (parseSample ';' (hd :: rest)).header.length :=
    two_le_splitFields_length ';' hd hsemi
  have hs := scoreCsvParsing_semicolon_pos (parseSample ';' (hd :: rest))
    (hd :: rest) hrows hn
  rw [hc0]
  exact hs

/-- Concrete instantiation of `scoreSemicolon_exceeds_comma`: header
`a;b` with one data row `1;2`. -/
theorem scoreSemicolon_exceeds_comma_witness :
    scoreCsvParsing (parseSample ',' [['a', ';', 'b'], ['1', ';', '2']]) ','
        [['a', ';', 'b'], ['1', ';', '2']] <
      scoreCsvParsing (parseSample ';' [['a', ';', 'b'], ['1', ';', '2']]) ';'
        [['a', ';', 'b'], ['1', ';', '2']] :=
  scoreSemicolon_exceeds_comma ['a', ';', 'b'] [['1', ';', '2']]
    (by decide) (by decide) (by decide)

/-- Unfolding equation for `hasDD` on two or more characters. -/
theorem hasDD_cons2 (a b : Char) (t : List Char) :
    hasDD (a :: b :: t) = ((a = '.' && b = '.') || hasDD (b :: t)) := rfl

/-- A dot-free character list contains no ".." sequence. -/
theorem hasDD_of_noDot : ∀ (l : List Char),
    l.all (fun c => !(c == '.')) = true → hasDD l = false
  | [], _ => rfl
  | [_], _ => rfl
  | c :: b :: t, h => by
    rw [List.all_cons, Bool.and_eq_true] at h
    have hne : ¬(c = '.') := by simpa using h.1
    rw [hasDD_cons2, hasDD_of_noDot (b :: t) h.2]
    simp [hne]

/-- Prefixing a single dot to a dot-free list creates no ".." sequence. -/
theorem hasDD_dot_cons (f : List Char)
    (hf : f.all (fun c => !(c == '.')) = true) : hasDD ('.' :: f) = false := by
  cases f with
  | nil => rfl
  | cons c fs =>
    have hfs := hf
    rw [List.all_cons, Bool.and_eq_true] at hf
    have hne : ¬(c = '.') := by simpa using hf.1
    rw [hasDD_cons2, hasDD_of_noDot (c :: fs) hfs]
    simp [hne]

/-- A ".." sequence survives appending on the right. -/
theorem hasDD_append_left : ∀ (a b : List Char),
    hasDD a = true → hasDD (a ++ b) = true
  | [], _, h => by rw [show hasDD [] = false from rfl] at h; exact absurd h (by simp)
  | [x], _, h => by rw [show hasDD [x] = false from rfl] at h; exact absurd h (by simp)
  | x :: y :: t, b, h => by
    rw [hasDD_cons2] at h
    rw [List.cons_append, List.cons_append, hasDD_cons2]
    rcases Bool.or_eq_true_iff.mp h with h1 | h1
    · rw [h1, Bool.true_or]
    · have h2 := hasDD_append_left (y :: t) b h1
      rw [List.cons_append] at h2
      rw [h2, Bool.or_true]

/-- A prefix of a list without ".." has no "..". -/
theorem hasDD_prefix_false (a b : List Char) (h : hasDD (a ++ b) = false) :
    hasDD a = false := by
  cases ha : hasDD a with
  | false => rfl
  | true =>
    have h2 := hasDD_append_left a b ha
    rw [h] at h2
    exact absurd h2 (by simp)

/-- Appending `"." ++ r` to a list ending in a dot creates a ".."
sequence. -/
theorem hasDD_getLast_dot : ∀ (a : List Char) (r : List Char),
    a.getLast? = some '.' → hasDD (a ++ '.' :: r) = true
  | [], _, h => by simp at h
  | [x], r, h => by
    have hx : x = '.' := by simpa using h
    subst hx
    rw [List.cons_append, List.nil_append, hasDD_cons2]
    simp
  | x :: y :: t, r, h => by
    rw [List.getLast?_cons_cons] at h
    have h2 := hasDD_getLast_dot (y :: t) r h
    rw [List.cons_append] at h2
    rw [List.cons_append, List.cons_append, hasDD_cons2, h2, Bool.or_true]

/-- Appending a dot and a dot-free tail to a list that has no ".." and
does not end in a dot yields a list with no "..". -/
theorem hasDD_append_ext : ∀ (a f : List Char),
    hasDD a = false → a.getLast? ≠ some '.' →
    f.all (fun c => !(c == '.')) = true → hasDD (a ++ '.' :: f) = false
  | [], f, _, _, hf => by
    rw [List.nil_append]
    exact hasDD_dot_cons f hf
  | [x], f, _, hlast, hf => by
    have hx : ¬(x = '.') := by
      intro hh
      exact hlast (by simp [hh])
    rw [List.cons_append, List.nil_append, hasDD_cons2, hasDD_dot_cons f hf]
    simp [hx]
  | x :: y :: t, f, ha, hlast, hf => by
    rw [hasDD_cons2] at ha
    rcases Bool.or_eq_false_iff.mp ha with ⟨ha1, ha2⟩
    rw [List.getLast?_cons_cons] at hlast
    have h2 := hasDD_append_ext (y :: t) f ha2 hlast hf
    rw [List.cons_append] at h2
    rw [List.cons_append, List.cons_append, hasDD_cons2, h2, ha1]
    rfl

/-- The head of a nonempty `dropWhile (· ≠ ".")` result is a dot. -/
theorem dropWhile_head_eq_dot : ∀ (l : List Char) (x : Char) (t : List Char),
    l.dropWhile (fun c => decide (c ≠ '.')) = x :: t → x = '.'
  | [], x, t, h => by simp at h
  | c :: cs, x, t, h => by
    rw [List.dropWhile_cons] at h
    by_cases hc : c = '.'
    · rw [if_neg (by simp [hc])] at h
      have : c = x := (List.cons.injEq c cs x t ▸ h).1
      rw [← this, hc]
    · rw [if_pos (by simpa using hc)] at h
      exact dropWhile_head_eq_dot cs x t h

/-- Structural facts about the base component of `splitext` on a legal
filename: it contains no ".." sequence, does not end in a dot, and
contains no path separator. -/
theorem splitext_base_props (nm : List Char) (hne : nm ≠ []) (hdot : nm ≠ ['.'])
    (hsep : noSeps nm = true) (hdd : hasDD nm = false) :
    hasDD (splitext nm).1 = false ∧ (splitext nm).1.getLast? ≠ some '.' ∧
      noSeps (splitext nm).1 = true := by
  unfold splitext
  cases hd : (nm.reverse).dropWhile (fun c => decide (c ≠ '.')) with
  | nil =>
    refine ⟨hdd, ?_, hsep⟩
    intro hlast
    have hmem : '.' ∈ nm := List.mem_of_mem_getLast? hlast
    have hall := List.dropWhile_eq_nil_iff.mp hd
    have hx := hall '.' (List.mem_reverse.mpr hmem)
    simp at hx
  | cons x baseRev =>
    have hx : x = '.' := dropWhile_head_eq_dot _ x baseRev hd
    subst hx
    dsimp only
    have hdecomp : nm = baseRev.reverse ++ '.' ::
        ((nm.reverse).takeWhile (fun c => decide (c ≠ '.'))).reverse := by
      have hsplit := List.takeWhile_append_dropWhile
        (fun c => decide (c ≠ '.')) nm.reverse
      rw [hd] at hsplit
      have h2 := congrArg List.reverse hsplit
      rw [List.reverse_append, List.reverse_cons, List.append_assoc,
        List.reverse_reverse] at h2
      exact h2.symm
    by_cases hany : baseRev.reverse.any (fun c => decide (c ≠ '.')) = true
    · rw [if_pos hany]
      refine ⟨?_, ?_, ?_⟩
      · exact hasDD_prefix_false _ _ (hdecomp ▸ hdd)
      · intro hlast
        have hcontra := hasDD_getLast_dot baseRev.reverse
          ((nm.reverse).takeWhile (fun c => decide (c ≠ '.'))).reverse hlast
        rw [← hdecomp, hdd] at hcontra
        exact absurd hcontra (by simp)
      · have hall := hdecomp ▸ hsep
        unfold noSeps at hall ⊢
        rw [List.all_append, Bool.and_eq_true] at hall
        exact hall.1
    · rw [if_neg hany]
      refine ⟨hdd, ?_, hsep⟩
      have hbase_dots : ∀ c ∈ baseRev.reverse, c = '.' := by
        intro c hc
        by_contra hcne
        exact hany (List.any_eq_true.mpr ⟨c, hc, by simpa using hcne⟩)
      cases hbr : baseRev with
      | cons b bs =>
        exfalso
        have hblast : (baseRev.reverse).getLast? = some '.' := by
          rw [hbr, List.getLast?_reverse]
          have hb : b = '.' := hbase_dots b (by rw [hbr]; simp)
          simp [hb]
        have hcontra := hasDD_getLast_dot baseRev.reverse
          ((nm.reverse).takeWhile (fun c => decide (c ≠ '.'))).reverse hblast
        rw [← hdecomp, hdd] at hcontra
        exact absurd hcontra (by simp)
      | nil =>
        rw [hbr] at hdecomp
        simp only [List.reverse_nil, List.nil_append] at hdecomp
        cases htk : (nm.reverse).takeWhile (fun c => decide (c ≠ '.')) with
        | nil =>
          rw [htk] at hdecomp
          simp only [List.reverse_nil] at hdecomp
          exact absurd hdecomp hdot
        | cons c cs =>
          intro hlast
          rw [hdecomp, htk] at hlast
          have hcmem : c ∈ (nm.reverse).takeWhile (fun c => decide (c ≠ '.')) := by
            rw [htk]
            exact List.mem_cons_self c cs
          have hcne : ¬(c = '.') := by simpa using List.mem_takeWhile_imp hcmem
          have hgl : ('.' :: (c :: cs).reverse).getLast? = some c := by
            rw [List.reverse_cons,
              show ('.' :: (cs.reverse ++ [c])) = ('.' :: cs.reverse) ++ [c] by simp]
            exact List.getLast?_concat _
          rw [hgl] at hlast
          exact hcne (Option.some.inj hlast)

/-- C7: for every legal input filename (nonempty, not ".", free of path
separators and of ".." sequences) and every chosen save format, the
Markdown reference produced for a relink decision is exactly
`media/<name>` where `<name>` contains no ".." sequence and no OS path
separator, so the reference cannot resolve outside the media folder. -/
theorem relink_reference_stays_in_media (suggested : List Char) (fmt : ImgFormat)
    (h : legalFilename suggested) :
    ∃ name, relinkNewPath suggested fmt = mediaSeg ++ name ∧
      hasDD name = false ∧ noSeps name = true := by
  obtain ⟨hne, hdot, hsep, hdd⟩ := h
  obtain ⟨hb1, hb2, hb3⟩ := splitext_base_props suggested hne hdot hsep hdd
  refine ⟨relinkFinalName suggested fmt, rfl, ?_, ?_⟩
  · unfold relinkFinalName
    refine hasDD_append_ext _ _ hb1 hb2 ?_
    cases fmt <;> decide
  · unfold relinkFinalName noSeps
    rw [List.all_append, Bool.and_eq_true]
    refine ⟨?_, ?_⟩
    · unfold noSeps at hb3
      exact hb3
    · cases fmt <;> decide

/-- Concrete instantiation of `relink_reference_stays_in_media` on the
filename `logo.png` with the PNG save format. -/
theorem relink_reference_stays_in_media_witness :
    ∃ name,
      relinkNewPath ['l', 'o', 'g', 'o', '.', 'p', 'n', 'g'] ImgFormat.png =
        mediaSeg ++ name ∧ hasDD name = false ∧ noSeps name = true :=
  relink_reference_stays_in_media ['l', 'o', 'g', 'o', '.', 'p', 'n', 'g']
    ImgFormat.png (by decide)
